import Mathlib

set_option maxHeartbeats 1000000

/- Shallow embedding of the blackjack engine in src/game.py.

   Machine integers: Python ints are unbounded, so bankrolls and bets are
   modelled as Int and card counts as Nat.  `random.shuffle` is modelled by
   an injected reordering function `σ : List Card → List Card`; theorems that
   need it assume `σ` permutes its argument, which `random.shuffle` does.
   A Python exception (IndexError from `pop` on an empty list) is modelled
   by `Option`: `none` means the call raises and the program aborts.
   `int(x * 2.5)` on a Python int x truncates the exact product toward zero,
   which is `Int.div (5 * x) 2`. -/

inductive Suit where
  | hearts | diamonds | clubs | spades
  deriving DecidableEq

inductive Rank where
  | r2 | r3 | r4 | r5 | r6 | r7 | r8 | r9 | r10 | jack | queen | king | ace
  deriving DecidableEq

structure Card where
  suit : Suit
  rank : Rank
  deriving DecidableEq

/-- Card.value from src/game.py: J/Q/K are 10, Ace is 11, numbers face value. -/
def Card.value (c : Card) : Nat :=
  match c.rank with
  | .jack => 10
  | .queen => 10
  | .king => 10
  | .ace => 11
  | .r2 => 2
  | .r3 => 3
  | .r4 => 4
  | .r5 => 5
  | .r6 => 6
  | .r7 => 7
  | .r8 => 8
  | .r9 => 9
  | .r10 => 10

def Rank.str : Rank → String
  | .r2 => "2"
  | .r3 => "3"
  | .r4 => "4"
  | .r5 => "5"
  | .r6 => "6"
  | .r7 => "7"
  | .r8 => "8"
  | .r9 => "9"
  | .r10 => "10"
  | .jack => "J"
  | .queen => "Q"
  | .king => "K"
  | .ace => "A"

def Suit.initial : Suit → String
  | .hearts => "H"
  | .diamonds => "D"
  | .clubs => "C"
  | .spades => "S"

/-- Card.__str__ : rank followed by the suit's first letter. -/
def Card.str (c : Card) : String := c.rank.str ++ c.suit.initial

def allSuits : List Suit := [.hearts, .diamonds, .clubs, .spades]

def allRanks : List Rank :=
  [.r2, .r3, .r4, .r5, .r6, .r7, .r8, .r9, .r10, .jack, .queen, .king, .ace]

def oneDeckCards : List Card :=
  (allSuits.map (fun s => allRanks.map (fun r => Card.mk s r))).flatten

/-- Deck._build_deck: num_decks copies of all suit by rank combinations. -/
def buildDeck (n : Nat) : List Card := (List.replicate n oneDeckCards).flatten

structure Deck where
  numDecks : Nat
  cards : List Card
  deriving DecidableEq

/-- Deck.draw: pop from the end of the list; on an empty list rebuild and
    shuffle first.  `none` models the IndexError raised by `pop` when even
    the rebuilt deck is empty (num_decks = 0). -/
def Deck.draw (σ : List Card → List Card) (d : Deck) : Option (Card × Deck) :=
  match (if d.cards.isEmpty then σ (buildDeck d.numDecks) else d.cards).reverse with
  | [] => none
  | c :: rest => some (c, ⟨d.numDecks, rest.reverse⟩)

/-- The while loop in Hand.value: subtract 10 while the total exceeds 21 and
    an ace counted as 11 remains. -/
def soften : Nat → Nat → Nat
  | v, 0 => v
  | v, a + 1 => if 21 < v then soften (v - 10) a else v

structure Hand where
  cards : List Card
  bet : Int
  deriving DecidableEq

def rawValue (cs : List Card) : Nat := (cs.map Card.value).sum

def countAces (cs : List Card) : Nat := cs.countP (fun c => c.rank == Rank.ace)

/-- Hand.value from src/game.py. -/
def Hand.value (h : Hand) : Nat := soften (rawValue h.cards) (countAces h.cards)

def Hand.isBlackjack (h : Hand) : Bool := h.cards.length == 2 && h.value == 21

def Hand.isBusted (h : Hand) : Bool := decide (21 < h.value)

def Hand.addCard (h : Hand) (c : Card) : Hand := { h with cards := h.cards ++ [c] }

def Hand.clear (_h : Hand) : Hand := ⟨[], 0⟩

def Hand.str (h : Hand) : String := String.intercalate " " (h.cards.map Card.str)

structure Player where
  name : String
  bankroll : Int
  hand : Hand
  deriving DecidableEq

/-- Player.place_bet: records the wager and deducts it when it is covered. -/
def Player.placeBet (p : Player) (amount : Int) : Player × Bool :=
  if amount ≤ p.bankroll then
    ({ p with hand := { p.hand with bet := amount }, bankroll := p.bankroll - amount }, true)
  else (p, false)

def Player.resetHand (p : Player) : Player := { p with hand := p.hand.clear }

inductive GameState where
  | betting | playerTurn | dealerTurn | roundOver | gameOver
  deriving DecidableEq

inductive RoundResult where
  | victory | loss | tie | blackjack | busted
  deriving DecidableEq

structure Game where
  deck : Deck
  player : Player
  dealerHand : Hand
  minBet : Int
  maxBet : Int
  gameState : GameState
  roundResult : Option RoundResult
  deriving DecidableEq

/-- int(bet * 2.5) in Python: exact product truncated toward zero. -/
def blackjackPayout (b : Int) : Int := Int.tdiv (5 * b) 2

/-- BlackjackGame._handle_blackjack. -/
def handleBlackjack (g : Game) : Option Game :=
  match g.dealerHand.cards.head? with
  | none => none
  | some up =>
    let g1 :=
      if 10 ≤ up.value then
        if g.dealerHand.cards.length = 2 ∧ g.dealerHand.value = 21 then
          { g with roundResult := some RoundResult.tie,
                   player := { g.player with bankroll := g.player.bankroll + g.player.hand.bet } }
        else
          { g with roundResult := some RoundResult.blackjack,
                   player := { g.player with
                     bankroll := g.player.bankroll + blackjackPayout g.player.hand.bet } }
      else
        { g with roundResult := some RoundResult.blackjack,
                 player := { g.player with
                   bankroll := g.player.bankroll + blackjackPayout g.player.hand.bet } }
    some { g1 with gameState := GameState.roundOver }

/-- BlackjackGame._start_round: reset both hands (zeroing the bet), deal
    player, dealer, player, dealer, then check for a natural blackjack. -/
def startRound (σ : List Card → List Card) (g : Game) : Option Game :=
  let p0 := g.player.resetHand
  let dh0 := g.dealerHand.clear
  match Deck.draw σ g.deck with
  | none => none
  | some (c1, d1) =>
    match Deck.draw σ d1 with
    | none => none
    | some (c2, d2) =>
      match Deck.draw σ d2 with
      | none => none
      | some (c3, d3) =>
        match Deck.draw σ d3 with
        | none => none
        | some (c4, d4) =>
          let g1 : Game := { g with
            deck := d4,
            player := { p0 with hand := (p0.hand.addCard c1).addCard c3 },
            dealerHand := (dh0.addCard c2).addCard c4,
            gameState := GameState.playerTurn }
          if g1.player.hand.isBlackjack then handleBlackjack g1 else some g1

/-- BlackjackGame.place_bet. -/
def Game.placeBet (σ : List Card → List Card) (g : Game) (amount : Int) :
    Option (Game × Bool) :=
  if g.gameState ≠ GameState.betting then some (g, false)
  else if amount < g.minBet ∨ g.maxBet < amount then some (g, false)
  else
    let pb := g.player.placeBet amount
    if pb.2 then
      match startRound σ { g with player := pb.1 } with
      | none => none
      | some g' => some (g', true)
    else some (g, false)

/-- BlackjackGame.hit. -/
def Game.hit (σ : List Card → List Card) (g : Game) : Option (Game × Bool) :=
  if g.gameState ≠ GameState.playerTurn then some (g, false)
  else
    match Deck.draw σ g.deck with
    | none => none
    | some (c, d1) =>
      let g1 := { g with deck := d1,
                         player := { g.player with hand := g.player.hand.addCard c } }
      if g1.player.hand.isBusted then
        some ({ g1 with roundResult := some RoundResult.busted,
                        gameState := GameState.roundOver }, true)
      else
        some (g1, true)

/-- BlackjackGame._determine_round_result. -/
def determineRoundResult (g : Game) : Game :=
  let pv := g.player.hand.value
  let dv := g.dealerHand.value
  let g1 :=
    if g.player.hand.isBusted then
      { g with roundResult := some RoundResult.busted }
    else if g.dealerHand.isBusted then
      { g with roundResult := some RoundResult.victory,
               player := { g.player with bankroll := g.player.bankroll + g.player.hand.bet * 2 } }
    else if dv < pv then
      { g with roundResult := some RoundResult.victory,
               player := { g.player with bankroll := g.player.bankroll + g.player.hand.bet * 2 } }
    else if pv < dv then
      { g with roundResult := some RoundResult.loss }
    else
      { g with roundResult := some RoundResult.tie,
               player := { g.player with bankroll := g.player.bankroll + g.player.hand.bet } }
  { g1 with gameState := GameState.roundOver }

/-- Each card contributes at least one point to a fully softened total, so a
    hand's value bounds its card count; this makes the dealer loop terminate. -/
theorem two_le_card_value (c : Card) : 2 ≤ c.value := by
  rcases c with ⟨s, r⟩
  cases r <;> simp [Card.value]

theorem soften_exists_sub (v a : Nat) : ∃ k, k ≤ a ∧ soften v a = v - 10 * k := by
  induction a generalizing v with
  | zero => exact ⟨0, le_rfl, by simp [soften]⟩
  | succ a ih =>
    by_cases hv : 21 < v
    · obtain ⟨k, hk, hs⟩ := ih (v - 10)
      refine ⟨k + 1, by omega, ?_⟩
      simp only [soften, if_pos hv]
      omega
    · exact ⟨0, by omega, by simp [soften, hv]⟩

theorem rawValue_lower (cs : List Card) :
    2 * cs.length + 9 * countAces cs ≤ rawValue cs := by
  induction cs with
  | nil => simp [rawValue, countAces]
  | cons c cs ih =>
    have hc := two_le_card_value c
    by_cases ha : c.rank = Rank.ace
    · have hval : c.value = 11 := by simp [Card.value, ha]
      simp only [rawValue, countAces, List.map_cons, List.sum_cons, List.countP_cons,
        List.length_cons, ha] at *
      simp only [beq_self_eq_true, if_pos] at *
      omega
    · have hbeq : (c.rank == Rank.ace) = false := by
        simp [beq_eq_false_iff_ne, ha]
      simp only [rawValue, countAces, List.map_cons, List.sum_cons, List.countP_cons,
        List.length_cons, hbeq, Bool.false_eq_true, if_false] at *
      omega

theorem countAces_le_length (cs : List Card) : countAces cs ≤ cs.length :=
  List.countP_le_length _

theorem Hand.length_le_value (h : Hand) : h.cards.length ≤ h.value := by
  obtain ⟨k, hk, hs⟩ := soften_exists_sub (rawValue h.cards) (countAces h.cards)
  have h1 := rawValue_lower h.cards
  have h2 := countAces_le_length h.cards
  simp only [Hand.value, hs]
  omega

/-- BlackjackGame._dealer_play's while loop: draw while the hand's value is
    below 17.  Terminates because each drawn card raises the card count and a
    hand's value is at least its card count. -/
def dealerLoop (σ : List Card → List Card) (h : Hand) (d : Deck) :
    Option (Hand × Deck) :=
  if hv : h.value < 17 then
    match Deck.draw σ d with
    | none => none
    | some cd => dealerLoop σ (h.addCard cd.1) cd.2
  else
    some (h, d)
termination_by 17 - h.cards.length
decreasing_by
  have hlen := Hand.length_le_value h
  simp only [Hand.addCard, List.length_append, List.length_cons, List.length_nil]
  omega

/-- BlackjackGame._dealer_play. -/
def dealerPlay (σ : List Card → List Card) (g : Game) : Option Game :=
  let g0 := { g with gameState := GameState.dealerTurn }
  match dealerLoop σ g0.dealerHand g0.deck with
  | none => none
  | some hd => some (determineRoundResult { g0 with dealerHand := hd.1, deck := hd.2 })

/-- BlackjackGame.stand. -/
def Game.stand (σ : List Card → List Card) (g : Game) : Option (Game × Bool) :=
  if g.gameState ≠ GameState.playerTurn then some (g, false)
  else
    match dealerPlay σ g with
    | none => none
    | some g' => some (g', true)

/-- BlackjackGame.start_new_round. -/
def Game.startNewRound (g : Game) : Game :=
  if g.gameState ≠ GameState.roundOver then g
  else { g with gameState := GameState.betting, roundResult := none }

structure GameInfo where
  gameState : GameState
  roundResult : Option RoundResult
  playerBankroll : Int
  playerHand : String
  playerValue : Nat
  dealerHand : String
  dealerValue : Nat
  dealerUpCard : Option String
  canHit : Bool
  canStand : Bool
  deckSize : Nat
  deriving DecidableEq

/-- BlackjackGame.get_game_info: a pure snapshot, no state change. -/
def Game.getGameInfo (g : Game) : GameInfo :=
  { gameState := g.gameState
    roundResult := g.roundResult
    playerBankroll := g.player.bankroll
    playerHand := g.player.hand.str
    playerValue := g.player.hand.value
    dealerHand := g.dealerHand.str
    dealerValue := g.dealerHand.value
    dealerUpCard := g.dealerHand.cards.head?.map Card.str
    canHit := g.gameState == GameState.playerTurn && !g.player.hand.isBusted
    canStand := g.gameState == GameState.playerTurn
    deckSize := g.deck.cards.length }

/-- The public operations of the engine, for whole-trace statements. -/
inductive Op where
  | placeBet (amount : Int)
  | hit
  | stand
  | startNewRound
  | getInfo
  deriving DecidableEq

/-- One public call; `none` models a raised exception ending the program. -/
def step (σ : List Card → List Card) (g : Game) : Op → Option Game
  | .placeBet a => (Game.placeBet σ g a).map Prod.fst
  | .hit => (Game.hit σ g).map Prod.fst
  | .stand => (Game.stand σ g).map Prod.fst
  | .startNewRound => some g.startNewRound
  | .getInfo => some g

def runOps (σ : List Card → List Card) (g : Game) : List Op → Option Game
  | [] => some g
  | op :: ops =>
    match step σ g op with
    | none => none
    | some g' => runOps σ g' ops

/- ===== Shoe lemmas ===== -/

theorem oneDeckCards_length : oneDeckCards.length = 52 := by decide

theorem buildDeck_length (n : Nat) : (buildDeck n).length = 52 * n := by
  induction n with
  | zero => rfl
  | succ n ih =>
    have h52 : oneDeckCards.length = 52 := oneDeckCards_length
    simp only [buildDeck, List.replicate_succ, List.flatten_cons, List.length_append] at *
    omega

/-- Drawing succeeds on any shoe whose num_decks is at least one, and keeps
    num_decks. -/
theorem draw_success (σ : List Card → List Card) (hσ : ∀ l, (σ l).Perm l)
    (d : Deck) (hn : 1 ≤ d.numDecks) :
    ∃ c d', Deck.draw σ d = some (c, d') ∧ d'.numDecks = d.numDecks := by
  have hne : (if d.cards.isEmpty then σ (buildDeck d.numDecks) else d.cards) ≠ [] := by
    by_cases he : d.cards.isEmpty
    · have hp := (hσ (buildDeck d.numDecks)).length_eq
      have hb := buildDeck_length d.numDecks
      simp only [he, if_pos]
      intro h0
      rw [h0] at hp
      simp only [List.length_nil] at hp
      omega
    · simpa [he] using List.isEmpty_eq_false.mp (Bool.not_eq_true _ ▸ he)
  rcases hrev : (if d.cards.isEmpty then σ (buildDeck d.numDecks) else d.cards).reverse with
    _ | ⟨c, rest⟩
  · exact absurd (List.reverse_eq_nil_iff.mp hrev) hne
  · exact ⟨c, ⟨d.numDecks, rest.reverse⟩, by unfold Deck.draw; rw [hrev], rfl⟩

/-- Claim C7 counterexample: a shoe built with num_decks = 0 and an empty card
    list makes draw fail (the Python code would raise IndexError from pop on
    the still-empty rebuilt list), so draw does not succeed on every shoe
    state. -/
theorem draw_empty_shoe_fails : Deck.draw id ⟨0, []⟩ = none := rfl

/-- Claim C7 (amended to shoes with at least one deck): for every shoe state
    with num_decks at least 1, draw() succeeds and returns the card removed
    from the end of the sequence; when the shoe is empty it first rebuilds the
    full 52 times num_decks cards and shuffles, so the size observed
    immediately after drawing from an empty shoe is 52 times num_decks minus
    one. -/
theorem draw_total_amended (σ : List Card → List Card) (d : Deck)
    (hσ : ∀ l, (σ l).Perm l) (hn : 1 ≤ d.numDecks) :
    ∃ c d', Deck.draw σ d = some (c, d') ∧ d'.numDecks = d.numDecks ∧
      (d.cards ≠ [] → d.cards = d'.cards ++ [c] ∧
        d'.cards.length = d.cards.length - 1) ∧
      (d.cards = [] → σ (buildDeck d.numDecks) = d'.cards ++ [c] ∧
        d'.cards.length = 52 * d.numDecks - 1) := by
  obtain ⟨c, d', hdraw, hnd⟩ := draw_success σ hσ d hn
  refine ⟨c, d', hdraw, hnd, ?_, ?_⟩
  · intro hne
    have he : d.cards.isEmpty = false := by simpa [List.isEmpty_eq_false] using hne
    unfold Deck.draw at hdraw
    rcases hrev : (if d.cards.isEmpty then σ (buildDeck d.numDecks) else d.cards).reverse with
      _ | ⟨c0, rest⟩
    · rw [hrev] at hdraw; simp at hdraw
    · rw [hrev] at hdraw
      simp only [Option.some_inj, Prod.mk.injEq] at hdraw
      obtain ⟨hc, hd⟩ := hdraw
      rw [he] at hrev
      simp only [Bool.false_eq_true, if_false] at hrev
      have hcards : d.cards = rest.reverse ++ [c0] := by
        have := congrArg List.reverse hrev
        simpa [List.reverse_cons] using this
      subst hc
      constructor
      · rw [← hd]; exact hcards
      · rw [← hd]
        simp only [hcards, List.length_append, List.length_reverse]
        simp
  · intro hemp
    have he : d.cards.isEmpty = true := by simp [hemp]
    unfold Deck.draw at hdraw
    rcases hrev : (if d.cards.isEmpty then σ (buildDeck d.numDecks) else d.cards).reverse with
      _ | ⟨c0, rest⟩
    · rw [hrev] at hdraw; simp at hdraw
    · rw [hrev] at hdraw
      simp only [Option.some_inj, Prod.mk.injEq] at hdraw
      obtain ⟨hc, hd⟩ := hdraw
      rw [he] at hrev
      simp only [if_true] at hrev
      have hcards : σ (buildDeck d.numDecks) = rest.reverse ++ [c0] := by
        have := congrArg List.reverse hrev
        simpa [List.reverse_cons] using this
      subst hc
      have hlen : (σ (buildDeck d.numDecks)).length = 52 * d.numDecks := by
        rw [(hσ (buildDeck d.numDecks)).length_eq, buildDeck_length]
      constructor
      · rw [← hd]; exact hcards
      · rw [← hd]
        rw [hcards] at hlen
        simp only [List.length_append, List.length_reverse, List.length_singleton] at hlen
        simp only [List.length_reverse]
        omega

/-- Claim C7 witness: drawing from an empty one-deck shoe succeeds and leaves
    51 cards. -/
theorem draw_total_amended_witness :
    ∃ c d', Deck.draw id ⟨1, []⟩ = some (c, d') ∧ d'.numDecks = 1 ∧
      (([] : List Card) ≠ [] → ([] : List Card) = d'.cards ++ [c] ∧
        d'.cards.length = ([] : List Card).length - 1) ∧
      (([] : List Card) = [] → id (buildDeck 1) = d'.cards ++ [c] ∧
        d'.cards.length = 52 * 1 - 1) :=
  draw_total_amended id ⟨1, []⟩ (fun l => List.Perm.refl l) (by decide)

/- ===== Hand value lemmas ===== -/

theorem soften_le_of_exists (v a : Nat) (h : ∃ k, k ≤ a ∧ v - 10 * k ≤ 21) :
    soften v a ≤ 21 := by
  induction a generalizing v with
  | zero =>
    obtain ⟨k, hk, hle⟩ := h
    simp only [soften]
    omega
  | succ a ih =>
    by_cases hv : 21 < v
    · simp only [soften, if_pos hv]
      obtain ⟨k, hk, hle⟩ := h
      exact ih (v - 10) ⟨k - 1, by omega, by omega⟩
    · simp only [soften, if_neg hv]
      omega

theorem soften_eq_of_forall (v a : Nat) (h : ∀ k, k ≤ a → 22 ≤ v - 10 * k) :
    soften v a = v - 10 * a := by
  induction a generalizing v with
  | zero =>
    simp only [soften]
    omega
  | succ a ih =>
    have h0 : 22 ≤ v := by have := h 0 (by omega); omega
    have hv : 21 < v := by omega
    simp only [soften, if_pos hv]
    have hrec := ih (v - 10) (fun k hk => by have := h (k + 1) (by omega); omega)
    rw [hrec]
    omega

theorem soften_gt_imp (v a : Nat) (h : 21 < soften v a) : soften v a = v - 10 * a := by
  induction a generalizing v with
  | zero => simp only [soften]; omega
  | succ a ih =>
    by_cases hv : 21 < v
    · simp only [soften, if_pos hv] at h ⊢
      rw [ih (v - 10) h]
      omega
    · simp only [soften, if_neg hv] at h ⊢
      omega

/-- Claim C8: Hand.value is the raw sum (Ace 11, J/Q/K 10, numbers face
    value) reduced by 10 once per Ace while the total exceeds 21 and a
    softenable Ace remains; it is at most 21 whenever some number of
    softening steps suffices, and otherwise equals the minimal achievable
    total, which is at least 22. -/
theorem hand_value_ace_softening (h : Hand) :
    (∃ k, k ≤ countAces h.cards ∧ h.value = rawValue h.cards - 10 * k) ∧
    (21 < h.value → h.value = rawValue h.cards - 10 * countAces h.cards) ∧
    ((∃ k, k ≤ countAces h.cards ∧ rawValue h.cards - 10 * k ≤ 21) → h.value ≤ 21) ∧
    ((∀ k, k ≤ countAces h.cards → 22 ≤ rawValue h.cards - 10 * k) →
      h.value = rawValue h.cards - 10 * countAces h.cards ∧ 22 ≤ h.value) := by
  refine ⟨soften_exists_sub _ _, soften_gt_imp _ _, soften_le_of_exists _ _, ?_⟩
  intro hall
  have heq := soften_eq_of_forall _ _ hall
  have h22 := hall (countAces h.cards) le_rfl
  exact ⟨heq, by rw [Hand.value, heq]; omega⟩

/-- Claim C8 witness: the hand Ace, King, Ace softens to 12, which is at
    most 21. -/
theorem hand_value_ace_softening_witness :
    Hand.value ⟨[⟨Suit.spades, Rank.ace⟩, ⟨Suit.hearts, Rank.king⟩,
      ⟨Suit.diamonds, Rank.ace⟩], 0⟩ ≤ 21 :=
  (hand_value_ace_softening _).2.2.1 ⟨2, by decide, by decide⟩

/- ===== Round start and bet lemmas ===== -/

theorem blackjackPayout_zero : blackjackPayout 0 = 0 := by decide

/-- _handle_blackjack with a zeroed bet changes only the result and state. -/
theorem handleBlackjack_effect (g gr : Game) (hb : g.player.hand.bet = 0)
    (h : handleBlackjack g = some gr) :
    gr.player = g.player ∧ gr.minBet = g.minBet ∧ gr.maxBet = g.maxBet ∧
    gr.deck = g.deck ∧ gr.dealerHand = g.dealerHand ∧
    gr.gameState = GameState.roundOver := by
  unfold handleBlackjack at h
  cases hh : g.dealerHand.cards.head? with
  | none => rw [hh] at h; simp at h
  | some up =>
    rw [hh] at h
    simp only [Option.some_inj] at h
    subst h
    by_cases h1 : 10 ≤ up.value
    · by_cases h2 : g.dealerHand.cards.length = 2 ∧ g.dealerHand.value = 21
      · simp [h1, h2, hb]
      · simp [h1, h2, hb, blackjackPayout_zero]
    · simp [h1, hb, blackjackPayout_zero]

/-- _start_round zeroes the wager before any settlement can use it, and it
    never touches the bankroll. -/
theorem startRound_effect (σ : List Card → List Card) (g gr : Game)
    (h : startRound σ g = some gr) :
    gr.player.hand.bet = 0 ∧ gr.player.bankroll = g.player.bankroll ∧
    gr.player.name = g.player.name ∧
    gr.minBet = g.minBet ∧ gr.maxBet = g.maxBet := by
  unfold startRound at h
  cases hd1 : Deck.draw σ g.deck with
  | none => rw [hd1] at h; exact Option.noConfusion h
  | some cd1 =>
    obtain ⟨c1, d1⟩ := cd1
    simp only [hd1] at h
    cases hd2 : Deck.draw σ d1 with
    | none => rw [hd2] at h; exact Option.noConfusion h
    | some cd2 =>
      obtain ⟨c2, d2⟩ := cd2
      simp only [hd2] at h
      cases hd3 : Deck.draw σ d2 with
      | none => rw [hd3] at h; exact Option.noConfusion h
      | some cd3 =>
        obtain ⟨c3, d3⟩ := cd3
        simp only [hd3] at h
        cases hd4 : Deck.draw σ d3 with
        | none => rw [hd4] at h; exact Option.noConfusion h
        | some cd4 =>
          obtain ⟨c4, d4⟩ := cd4
          simp only [hd4] at h
          split at h
          · have hb : ({ g with
                deck := d4,
                player := { g.player.resetHand with
                  hand := ((g.player.resetHand).hand.addCard c1).addCard c3 },
                dealerHand := ((g.dealerHand.clear).addCard c2).addCard c4,
                gameState := GameState.playerTurn } : Game).player.hand.bet = 0 := by
              simp [Player.resetHand, Hand.clear, Hand.addCard]
            obtain ⟨hp, hmin, hmax, hdk, hdh, hgs⟩ := handleBlackjack_effect _ _ hb h
            refine ⟨?_, ?_, ?_, ?_, ?_⟩ <;>
              simp [hp, hmin, hmax, Player.resetHand, Hand.clear, Hand.addCard]
          · simp only [Option.some_inj] at h
            subst h
            refine ⟨?_, ?_, ?_, ?_, ?_⟩ <;>
              simp [Player.resetHand, Hand.clear, Hand.addCard]

/-- Claim C5: place_bet rejects atomically, returning false with the whole
    engine state unchanged, whenever the state is not BETTING, the amount is
    below min_bet or above max_bet, or the player cannot cover it. -/
theorem place_bet_rejection_atomic (σ : List Card → List Card) (g : Game)
    (amt : Int)
    (hrej : g.gameState ≠ GameState.betting ∨ amt < g.minBet ∨ g.maxBet < amt ∨
      g.player.bankroll < amt) :
    Game.placeBet σ g amt = some (g, false) := by
  unfold Game.placeBet
  by_cases h1 : g.gameState ≠ GameState.betting
  · simp [h1]
  · push_neg at h1
    by_cases h2 : amt < g.minBet ∨ g.maxBet < amt
    · simp [h1, h2]
    · have h3 : g.player.bankroll < amt := by tauto
      simp [h1, h2, Player.placeBet, not_le.mpr h3]

/-- A fresh engine over a rigged four-card shoe dealing the player 10 and 9 of
    hearts and the dealer 10 and 9 of diamonds, used in concrete scenarios. -/
def gNineteen : Game :=
  { deck := ⟨6, [⟨Suit.diamonds, Rank.r9⟩, ⟨Suit.hearts, Rank.r9⟩,
      ⟨Suit.diamonds, Rank.r10⟩, ⟨Suit.hearts, Rank.r10⟩]⟩,
    player := ⟨"Player", 1000, ⟨[], 0⟩⟩,
    dealerHand := ⟨[], 0⟩,
    minBet := 10,
    maxBet := 500,
    gameState := GameState.betting,
    roundResult := none }

/-- Claim C5 witness: a bet below min_bet is rejected without any change. -/
theorem place_bet_rejection_atomic_witness :
    Game.placeBet id gNineteen 5 = some (gNineteen, false) :=
  place_bet_rejection_atomic id gNineteen 5 (Or.inr (Or.inl (by decide)))

/-- Every outcome of place_bet: either a rejection leaving the state intact,
    or an accepted wager whose amount was in range and covered, deducted from
    the bankroll, with the recorded bet field already reset to zero. -/
theorem placeBet_cases (σ : List Card → List Card) (g gr : Game) (amt : Int)
    (b : Bool) (h : Game.placeBet σ g amt = some (gr, b)) :
    (b = false ∧ gr = g) ∨
    (b = true ∧ g.gameState = GameState.betting ∧ g.minBet ≤ amt ∧
      amt ≤ g.maxBet ∧ amt ≤ g.player.bankroll ∧ gr.player.hand.bet = 0 ∧
      gr.player.bankroll = g.player.bankroll - amt ∧
      gr.minBet = g.minBet ∧ gr.maxBet = g.maxBet) := by
  unfold Game.placeBet at h
  by_cases h1 : g.gameState ≠ GameState.betting
  · left
    simp only [if_pos h1, Option.some_inj, Prod.mk.injEq] at h
    exact ⟨h.2.symm, h.1.symm⟩
  · push_neg at h1
    by_cases h2 : amt < g.minBet ∨ g.maxBet < amt
    · left
      simp only [h1, if_pos h2] at h
      simp only [ne_eq, not_true_eq_false, if_false, Option.some_inj,
        Prod.mk.injEq] at h
      exact ⟨h.2.symm, h.1.symm⟩
    · push_neg at h2
      have hne : ¬ (g.gameState ≠ GameState.betting) := by simp [h1]
      have hnr : ¬ (amt < g.minBet ∨ g.maxBet < amt) := by omega
      rw [if_neg hne, if_neg hnr] at h
      by_cases h3 : amt ≤ g.player.bankroll
      · right
        simp only [Player.placeBet, if_pos h3, if_true] at h
        split at h
        next hsr => exact Option.noConfusion h
        next g2 hsr =>
          simp only [Option.some_inj, Prod.mk.injEq] at h
          obtain ⟨hg2, hb⟩ := h
          obtain ⟨e1, e2, e3, e4, e5⟩ := startRound_effect σ _ _ hsr
          subst hg2
          exact ⟨hb.symm, h1, h2.1, h2.2, h3, e1, e2, e4, e5⟩
      · left
        simp only [Player.placeBet, if_neg h3, Bool.false_eq_true, if_false,
          Option.some_inj, Prod.mk.injEq] at h
        exact ⟨h.2.symm, h.1.symm⟩

/- ===== Hit, dealer play, and settlement lemmas ===== -/

/-- hit never touches the bankroll, the recorded bet, or the bet limits. -/
theorem hit_effect (σ : List Card → List Card) (g gr : Game) (b : Bool)
    (h : Game.hit σ g = some (gr, b)) :
    gr.player.bankroll = g.player.bankroll ∧
    gr.player.hand.bet = g.player.hand.bet ∧ gr.minBet = g.minBet := by
  unfold Game.hit at h
  by_cases h1 : g.gameState ≠ GameState.playerTurn
  · rw [if_pos h1] at h
    simp only [Option.some_inj, Prod.mk.injEq] at h
    obtain ⟨hg, _⟩ := h
    subst hg
    exact ⟨rfl, rfl, rfl⟩
  · rw [if_neg h1] at h
    cases hd : Deck.draw σ g.deck with
    | none => rw [hd] at h; exact Option.noConfusion h
    | some cd =>
      obtain ⟨c, d1⟩ := cd
      simp only [hd] at h
      split at h <;>
      · simp only [Option.some_inj, Prod.mk.injEq] at h
        obtain ⟨hg, _⟩ := h
        subst hg
        exact ⟨rfl, rfl, rfl⟩

/-- _determine_round_result sets ROUND_OVER and only ever adds to the
    bankroll an amount that is zero, twice the recorded bet, or the bet. -/
theorem determineRoundResult_effect (g : Game) :
    (determineRoundResult g).gameState = GameState.roundOver ∧
    (determineRoundResult g).player.hand.bet = g.player.hand.bet ∧
    (determineRoundResult g).minBet = g.minBet ∧
    (determineRoundResult g).dealerHand = g.dealerHand ∧
    ∃ k : Int, (k = 0 ∨ k = g.player.hand.bet * 2 ∨ k = g.player.hand.bet) ∧
      (determineRoundResult g).player.bankroll = g.player.bankroll + k := by
  unfold determineRoundResult
  by_cases hb1 : g.player.hand.isBusted = true
  · refine ⟨?_, ?_, ?_, ?_, 0, Or.inl rfl, ?_⟩ <;> simp [hb1]
  · by_cases hb2 : g.dealerHand.isBusted = true
    · refine ⟨?_, ?_, ?_, ?_, g.player.hand.bet * 2, Or.inr (Or.inl rfl), ?_⟩ <;>
        simp [hb1, hb2]
    · by_cases hc1 : g.dealerHand.value < g.player.hand.value
      · refine ⟨?_, ?_, ?_, ?_, g.player.hand.bet * 2, Or.inr (Or.inl rfl), ?_⟩ <;>
          simp [hb1, hb2, hc1]
      · by_cases hc2 : g.player.hand.value < g.dealerHand.value
        · refine ⟨?_, ?_, ?_, ?_, 0, Or.inl rfl, ?_⟩ <;> simp [hb1, hb2, hc1, hc2]
        · refine ⟨?_, ?_, ?_, ?_, g.player.hand.bet, Or.inr (Or.inr rfl), ?_⟩ <;>
            simp [hb1, hb2, hc1, hc2]

/-- The dealer loop returns immediately once the hand stands on 17 or more. -/
theorem dealerLoop_of_ge (σ : List Card → List Card) (h : Hand) (d : Deck)
    (hge : ¬ h.value < 17) : dealerLoop σ h d = some (h, d) := by
  unfold dealerLoop
  simp [hge]

/-- With a shuffling permutation and at least one deck, the dealer loop always
    finishes, stopping at the first hand worth 17 or more. -/
theorem dealerLoop_total (σ : List Card → List Card) (hσ : ∀ l, (σ l).Perm l) :
    ∀ (n : Nat) (h : Hand) (d : Deck), 17 - h.cards.length ≤ n →
      1 ≤ d.numDecks →
      ∃ h' d', dealerLoop σ h d = some (h', d') ∧ 17 ≤ h'.value ∧
        d'.numDecks = d.numDecks := by
  intro n
  induction n with
  | zero =>
    intro h d hle hn
    have hlen := Hand.length_le_value h
    have hge : ¬ h.value < 17 := by omega
    exact ⟨h, d, dealerLoop_of_ge σ h d hge, by omega, rfl⟩
  | succ n ih =>
    intro h d hle hn
    by_cases hv : h.value < 17
    · obtain ⟨c, d1, hd, hnd⟩ := draw_success σ hσ d hn
      have hstep : 17 - (h.addCard c).cards.length ≤ n := by
        simp only [Hand.addCard, List.length_append, List.length_singleton]
        omega
      obtain ⟨h', d', hloop, hval, hnd'⟩ := ih (h.addCard c) d1 hstep (hnd ▸ hn)
      refine ⟨h', d', ?_, hval, by rw [hnd', hnd]⟩
      unfold dealerLoop
      rw [dif_pos hv, hd]
      exact hloop
    · exact ⟨h, d, dealerLoop_of_ge σ h d hv, by omega, rfl⟩

/-- _dealer_play runs the loop then settles; only the settlement credit,
    derived from the recorded bet, reaches the bankroll. -/
theorem dealerPlay_effect (σ : List Card → List Card) (g gr : Game)
    (h : dealerPlay σ g = some gr) :
    gr.player.hand.bet = g.player.hand.bet ∧ gr.minBet = g.minBet ∧
    gr.gameState = GameState.roundOver ∧
    ∃ k : Int, (k = 0 ∨ k = g.player.hand.bet * 2 ∨ k = g.player.hand.bet) ∧
      gr.player.bankroll = g.player.bankroll + k := by
  unfold dealerPlay at h
  dsimp only at h
  split at h
  · exact Option.noConfusion h
  next hd hdl =>
    simp only [Option.some_inj] at h
    subst h
    obtain ⟨e1, e2, e3, e4, k, hk, e5⟩ := determineRoundResult_effect
      { { g with gameState := GameState.dealerTurn } with
        dealerHand := hd.1, deck := hd.2 }
    exact ⟨e2, e3, e1, k, hk, e5⟩

/-- stand leaves the bet and limits alone and only credits the settlement
    amount. -/
theorem stand_effect (σ : List Card → List Card) (g gr : Game) (b : Bool)
    (h : Game.stand σ g = some (gr, b)) :
    gr.player.hand.bet = g.player.hand.bet ∧ gr.minBet = g.minBet ∧
    ∃ k : Int, (k = 0 ∨ k = g.player.hand.bet * 2 ∨ k = g.player.hand.bet) ∧
      gr.player.bankroll = g.player.bankroll + k := by
  unfold Game.stand at h
  by_cases h1 : g.gameState ≠ GameState.playerTurn
  · rw [if_pos h1] at h
    simp only [Option.some_inj, Prod.mk.injEq] at h
    obtain ⟨hg, _⟩ := h
    subst hg
    exact ⟨rfl, rfl, 0, Or.inl rfl, (add_zero _).symm⟩
  · rw [if_neg h1] at h
    cases hdp : dealerPlay σ g with
    | none => rw [hdp] at h; exact Option.noConfusion h
    | some g2 =>
      rw [hdp] at h
      simp only [Option.some_inj, Prod.mk.injEq] at h
      obtain ⟨hg, _⟩ := h
      subst hg
      obtain ⟨e1, e2, _, k, hk, e5⟩ := dealerPlay_effect σ g g2 hdp
      exact ⟨e1, e2, k, hk, e5⟩

theorem startNewRound_effect (g : Game) :
    (Game.startNewRound g).player = g.player ∧
    (Game.startNewRound g).minBet = g.minBet := by
  unfold Game.startNewRound
  split <;> exact ⟨rfl, rfl⟩

/- ===== Whole-round bet tracking and the bankroll invariant ===== -/

/-- Claim C3: when place_bet(amount) succeeds, the player hand's bet field is
    0 rather than amount when the call returns, because _start_round clears
    both hands after Player.place_bet recorded the wager; the bet stays 0 for
    the remainder of the round, so every settlement branch credits the
    bankroll with 0. -/
theorem bet_cleared_after_place_bet (σ : List Card → List Card) (g g1 : Game)
    (amt : Int) (hs : Game.placeBet σ g amt = some (g1, true)) :
    g1.player.hand.bet = 0 ∧
    (∀ ops : List Op,
      (∀ op ∈ ops, op = Op.hit ∨ op = Op.stand ∨ op = Op.getInfo) →
      ∀ g2, runOps σ g1 ops = some g2 →
        g2.player.hand.bet = 0 ∧ g2.player.bankroll = g1.player.bankroll) := by
  have hbet : g1.player.hand.bet = 0 := by
    rcases placeBet_cases σ g g1 amt true hs with ⟨hfalse, _⟩ | ⟨_, _, _, _, _, hb, _⟩
    · exact absurd hfalse (by simp)
    · exact hb
  refine ⟨hbet, ?_⟩
  suffices H : ∀ ops : List Op,
      (∀ op ∈ ops, op = Op.hit ∨ op = Op.stand ∨ op = Op.getInfo) →
      ∀ gs g2, gs.player.hand.bet = 0 → runOps σ gs ops = some g2 →
        g2.player.hand.bet = 0 ∧ g2.player.bankroll = gs.player.bankroll by
    intro ops hops g2 hrun
    exact H ops hops g1 g2 hbet hrun
  intro ops
  induction ops with
  | nil =>
    intro _ gs g2 hb0 hrun
    simp only [runOps, Option.some_inj] at hrun
    subst hrun
    exact ⟨hb0, rfl⟩
  | cons op ops ih =>
    intro hops gs g2 hb0 hrun
    have hop := hops op (by simp)
    have hops' : ∀ o ∈ ops, o = Op.hit ∨ o = Op.stand ∨ o = Op.getInfo :=
      fun o ho => hops o (by simp [ho])
    unfold runOps at hrun
    cases hst : step σ gs op with
    | none => rw [hst] at hrun; exact Option.noConfusion hrun
    | some gm =>
      rw [hst] at hrun
      have hinv : gm.player.hand.bet = 0 ∧ gm.player.bankroll = gs.player.bankroll := by
        rcases hop with rfl | rfl | rfl
        · simp only [step, Option.map_eq_some'] at hst
          obtain ⟨⟨gm', bb⟩, hhit, heq⟩ := hst
          obtain ⟨e1, e2, _⟩ := hit_effect σ gs gm' bb hhit
          simp only at heq
          subst heq
          exact ⟨by rw [e2, hb0], e1⟩
        · simp only [step, Option.map_eq_some'] at hst
          obtain ⟨⟨gm', bb⟩, hstand, heq⟩ := hst
          obtain ⟨e1, _, k, hk, e5⟩ := stand_effect σ gs gm' bb hstand
          have hk0 : k = 0 := by rcases hk with rfl | rfl | rfl <;> simp [hb0]
          simp only at heq
          subst heq
          exact ⟨by rw [e1, hb0], by rw [e5, hk0, add_zero]⟩
        · simp only [step, Option.some_inj] at hst
          subst hst
          exact ⟨hb0, rfl⟩
      obtain ⟨hbm, hkb⟩ := hinv
      obtain ⟨r1, r2⟩ := ih hops' gm g2 hbm hrun
      exact ⟨r1, by rw [r2, hkb]⟩


/-- Each public operation keeps min_bet non-negative, the bankroll
    non-negative, and the recorded bet non-negative. -/
theorem step_inv (σ : List Card → List Card) (g g' : Game) (op : Op)
    (h0 : 0 ≤ g.minBet) (h1 : 0 ≤ g.player.bankroll)
    (h2 : 0 ≤ g.player.hand.bet) (h : step σ g op = some g') :
    0 ≤ g'.minBet ∧ 0 ≤ g'.player.bankroll ∧ 0 ≤ g'.player.hand.bet := by
  cases op with
  | placeBet a =>
    simp only [step, Option.map_eq_some'] at h
    obtain ⟨⟨gr, b⟩, hpb, heq⟩ := h
    simp only at heq
    subst heq
    rcases placeBet_cases σ g gr a b hpb with ⟨_, rfl⟩ |
      ⟨_, _, hmin, _, hcov, hbet0, hbank, hminBet, _⟩
    · exact ⟨h0, h1, h2⟩
    · refine ⟨by rw [hminBet]; exact h0, ?_, by rw [hbet0]⟩
      rw [hbank]
      omega
  | hit =>
    simp only [step, Option.map_eq_some'] at h
    obtain ⟨⟨gr, b⟩, hh, heq⟩ := h
    simp only at heq
    subst heq
    obtain ⟨e1, e2, e3⟩ := hit_effect σ g gr b hh
    exact ⟨by rw [e3]; exact h0, by rw [e1]; exact h1, by rw [e2]; exact h2⟩
  | stand =>
    simp only [step, Option.map_eq_some'] at h
    obtain ⟨⟨gr, b⟩, hh, heq⟩ := h
    simp only at heq
    subst heq
    obtain ⟨e1, e2, k, hk, e5⟩ := stand_effect σ g gr b hh
    have hknn : 0 ≤ k := by rcases hk with rfl | rfl | rfl <;> omega
    refine ⟨by rw [e2]; exact h0, ?_, by rw [e1]; exact h2⟩
    rw [e5]
    omega
  | startNewRound =>
    simp only [step, Option.some_inj] at h
    subst h
    obtain ⟨e1, e2⟩ := startNewRound_effect g
    exact ⟨by rw [e2]; exact h0, by rw [e1]; exact h1, by rw [e1]; exact h2⟩
  | getInfo =>
    simp only [step, Option.some_inj] at h
    subst h
    exact ⟨h0, h1, h2⟩

/-- Claim C6: starting from an engine whose bankroll, min_bet and recorded
    bets are non-negative (as every freshly constructed engine is), any
    sequence of public operations keeps the player's bankroll non-negative:
    a wager is only deducted when covered, and every settlement only adds. -/
theorem bankroll_never_negative (σ : List Card → List Card) (g : Game)
    (h0 : 0 ≤ g.minBet) (h1 : 0 ≤ g.player.bankroll)
    (h2 : 0 ≤ g.player.hand.bet) :
    ∀ (ops : List Op) (g' : Game), runOps σ g ops = some g' →
      0 ≤ g'.player.bankroll := by
  intro ops
  induction ops generalizing g with
  | nil =>
    intro g' h
    simp only [runOps, Option.some_inj] at h
    subst h
    exact h1
  | cons op ops ih =>
    intro g' h
    unfold runOps at h
    cases hs : step σ g op with
    | none => rw [hs] at h; exact Option.noConfusion h
    | some gm =>
      rw [hs] at h
      obtain ⟨k0, k1, k2⟩ := step_inv σ g gm op h0 h1 h2 hs
      exact ih gm k0 k1 k2 g' h


/- ===== Stand and hit contracts ===== -/

/-- The engine state reached in gNineteen after the accepted bet of 100:
    player shows 19, dealer shows 19, bankroll 900, bet field zeroed. -/
def gMidRound : Game :=
  { deck := ⟨6, []⟩,
    player := ⟨"Player", 900, ⟨[⟨Suit.hearts, Rank.r10⟩, ⟨Suit.hearts, Rank.r9⟩], 0⟩⟩,
    dealerHand := ⟨[⟨Suit.diamonds, Rank.r10⟩, ⟨Suit.diamonds, Rank.r9⟩], 0⟩,
    minBet := 10,
    maxBet := 500,
    gameState := GameState.playerTurn,
    roundResult := none }

/-- Claim C9: stand() returns false with no state change outside PLAYER_TURN;
    otherwise it returns true and, in the same call, draws for the dealer
    while the dealer hand's value is below 17 — a loop that always
    terminates — then settles, leaving ROUND_OVER with the dealer's final
    value at least 17, the hand untouched when it already stood at 17. -/
theorem stand_contract (σ : List Card → List Card) (g : Game)
    (hσ : ∀ l, (σ l).Perm l) :
    (g.gameState ≠ GameState.playerTurn → Game.stand σ g = some (g, false)) ∧
    (g.gameState = GameState.playerTurn → 1 ≤ g.deck.numDecks →
      ∃ h' d' g', dealerLoop σ g.dealerHand g.deck = some (h', d') ∧
        17 ≤ h'.value ∧
        (17 ≤ g.dealerHand.value → h' = g.dealerHand ∧ d' = g.deck) ∧
        Game.stand σ g = some (g', true) ∧
        g' = determineRoundResult { g with
          gameState := GameState.dealerTurn, dealerHand := h', deck := d' } ∧
        g'.gameState = GameState.roundOver) := by
  constructor
  · intro h1
    unfold Game.stand
    rw [if_pos h1]
  · intro h1 hn
    obtain ⟨h', d', hloop, hval, hnd⟩ := dealerLoop_total σ hσ
      (17 - g.dealerHand.cards.length) g.dealerHand g.deck le_rfl hn
    have hsame : 17 ≤ g.dealerHand.value → h' = g.dealerHand ∧ d' = g.deck := by
      intro hge
      have h2 := dealerLoop_of_ge σ g.dealerHand g.deck (by omega)
      rw [h2] at hloop
      simp only [Option.some_inj, Prod.mk.injEq] at hloop
      exact ⟨hloop.1.symm, hloop.2.symm⟩
    have hstand : Game.stand σ g =
        some (determineRoundResult { g with
          gameState := GameState.dealerTurn, dealerHand := h', deck := d' }, true) := by
      unfold Game.stand dealerPlay
      rw [if_neg (by simp [h1])]
      dsimp only
      simp only [hloop]
    exact ⟨h', d', determineRoundResult { g with
      gameState := GameState.dealerTurn, dealerHand := h', deck := d' },
      hloop, hval, hsame, hstand, rfl, (determineRoundResult_effect _).1⟩

/-- Claim C9 witness: standing on the concrete 19 versus 19 round runs the
    dealer (already at 19, so no draw) and settles at ROUND_OVER. -/
theorem stand_contract_witness :
    ∃ h' d' g', dealerLoop id gMidRound.dealerHand gMidRound.deck = some (h', d') ∧
      17 ≤ h'.value ∧
      (17 ≤ gMidRound.dealerHand.value → h' = gMidRound.dealerHand ∧ d' = gMidRound.deck) ∧
      Game.stand id gMidRound = some (g', true) ∧
      g' = determineRoundResult { gMidRound with
        gameState := GameState.dealerTurn, dealerHand := h', deck := d' } ∧
      g'.gameState = GameState.roundOver :=
  (stand_contract id gMidRound (fun l => List.Perm.refl l)).2 (by decide) (by decide)

/-- Claim C10: hit() returns false with no state change outside PLAYER_TURN;
    accepted, it draws exactly one card into the player's hand and returns
    true regardless of bust; on a bust it sets BUSTED and moves to ROUND_OVER
    with the bankroll unchanged, otherwise the state stays PLAYER_TURN. -/
theorem hit_contract (σ : List Card → List Card) (g : Game)
    (hσ : ∀ l, (σ l).Perm l) :
    (g.gameState ≠ GameState.playerTurn → Game.hit σ g = some (g, false)) ∧
    (g.gameState = GameState.playerTurn → 1 ≤ g.deck.numDecks →
      ∃ c d1 g', Deck.draw σ g.deck = some (c, d1) ∧
        Game.hit σ g = some (g', true) ∧
        g'.player.hand.cards = g.player.hand.cards ++ [c] ∧
        g'.deck = d1 ∧
        g'.player.bankroll = g.player.bankroll ∧
        (21 < g'.player.hand.value →
          g'.roundResult = some RoundResult.busted ∧
          g'.gameState = GameState.roundOver) ∧
        (¬ 21 < g'.player.hand.value →
          g'.gameState = GameState.playerTurn ∧ g'.roundResult = g.roundResult)) := by
  constructor
  · intro h1
    unfold Game.hit
    rw [if_pos h1]
  · intro h1 hn
    obtain ⟨c, d1, hd, hnd⟩ := draw_success σ hσ g.deck hn
    have hhit : Game.hit σ g =
        (if ({ g with
            deck := d1, player := { g.player with hand := g.player.hand.addCard c } } :
            Game).player.hand.isBusted then
          some ({ { g with
            deck := d1, player := { g.player with hand := g.player.hand.addCard c } } with
            roundResult := some RoundResult.busted, gameState := GameState.roundOver }, true)
        else
          some ({ g with
            deck := d1, player := { g.player with hand := g.player.hand.addCard c } }, true)) := by
      unfold Game.hit
      rw [if_neg (by simp [h1])]
      simp only [hd]
    by_cases hbust : ({ g with
        deck := d1, player := { g.player with hand := g.player.hand.addCard c } } :
        Game).player.hand.isBusted = true
    · rw [if_pos hbust] at hhit
      have hv : 21 < (g.player.hand.addCard c).value := of_decide_eq_true hbust
      refine ⟨c, d1, _, hd, hhit, by simp [Hand.addCard], rfl, rfl, ?_, ?_⟩
      · intro _
        exact ⟨rfl, rfl⟩
      · intro hcon
        exact absurd hv hcon
    · rw [if_neg hbust] at hhit
      have hv : ¬ 21 < (g.player.hand.addCard c).value := by
        intro hcon
        exact hbust (decide_eq_true hcon)
      refine ⟨c, d1, _, hd, hhit, by simp [Hand.addCard], rfl, rfl, ?_, ?_⟩
      · intro hcon
        exact absurd hcon hv
      · intro _
        exact ⟨h1, rfl⟩

/-- Claim C10 witness: hitting in the concrete 19 versus 19 round draws one
    card and returns true. -/
theorem hit_contract_witness :
    ∃ c d1 g', Deck.draw id gMidRound.deck = some (c, d1) ∧
      Game.hit id gMidRound = some (g', true) ∧
      g'.player.hand.cards = gMidRound.player.hand.cards ++ [c] ∧
      g'.deck = d1 ∧
      g'.player.bankroll = gMidRound.player.bankroll ∧
      (21 < g'.player.hand.value →
        g'.roundResult = some RoundResult.busted ∧
        g'.gameState = GameState.roundOver) ∧
      (¬ 21 < g'.player.hand.value →
        g'.gameState = GameState.playerTurn ∧ g'.roundResult = gMidRound.roundResult) :=
  (hit_contract id gMidRound (fun l => List.Perm.refl l)).2 (by decide) (by decide)

/- ===== Successful bet path (C4) and the zero-credit settlements ===== -/

theorem handleBlackjack_some (g : Game) (hne : g.dealerHand.cards ≠ []) :
    ∃ gr, handleBlackjack g = some gr := by
  unfold handleBlackjack
  cases hh : g.dealerHand.cards.head? with
  | none => exact absurd (List.head?_eq_none_iff.mp hh) hne
  | some up => exact ⟨_, rfl⟩

/-- When four draws succeed, _start_round deals Player, Dealer, Player,
    Dealer in that order, leaves the bankroll alone, and ends in PLAYER_TURN
    unless the dealt player hand is a natural blackjack, which settles
    immediately at ROUND_OVER. -/
theorem startRound_success (σ : List Card → List Card) (g : Game)
    (c1 : Card) (d1 : Deck) (c2 : Card) (d2 : Deck) (c3 : Card) (d3 : Deck)
    (c4 : Card) (d4 : Deck)
    (hd1 : Deck.draw σ g.deck = some (c1, d1))
    (hd2 : Deck.draw σ d1 = some (c2, d2))
    (hd3 : Deck.draw σ d2 = some (c3, d3))
    (hd4 : Deck.draw σ d3 = some (c4, d4)) :
    ∃ g', startRound σ g = some g' ∧
      g'.player.bankroll = g.player.bankroll ∧
      g'.player.hand.cards = [c1, c3] ∧
      g'.dealerHand.cards = [c2, c4] ∧
      g'.deck = d4 ∧
      g'.gameState = (if g'.player.hand.isBlackjack then GameState.roundOver
        else GameState.playerTurn) := by
  unfold startRound
  simp only [hd1, hd2, hd3, hd4]
  split
  next hbj =>
    obtain ⟨gr, hgr⟩ := handleBlackjack_some ({ g with
      deck := d4,
      player := { g.player.resetHand with
        hand := ((g.player.resetHand).hand.addCard c1).addCard c3 },
      dealerHand := ((g.dealerHand.clear).addCard c2).addCard c4,
      gameState := GameState.playerTurn } : Game)
      (by simp [Hand.addCard, Hand.clear])
    have hb0 : ({ g with
        deck := d4,
        player := { g.player.resetHand with
          hand := ((g.player.resetHand).hand.addCard c1).addCard c3 },
        dealerHand := ((g.dealerHand.clear).addCard c2).addCard c4,
        gameState := GameState.playerTurn } : Game).player.hand.bet = 0 := by
      simp [Player.resetHand, Hand.clear, Hand.addCard]
    obtain ⟨hp, hmin, hmax, hdk, hdh, hgs⟩ := handleBlackjack_effect _ _ hb0 hgr
    refine ⟨gr, hgr, ?_, ?_, ?_, ?_, ?_⟩
    · simp [hp, Player.resetHand, Hand.clear, Hand.addCard]
    · simp [hp, Player.resetHand, Hand.clear, Hand.addCard]
    · simp [hdh, Hand.clear, Hand.addCard]
    · simp [hdk]
    · rw [hgs]
      have : gr.player.hand.isBlackjack = true := by
        rw [hp]
        simpa using hbj
      rw [this]
      simp
  next hbj =>
    refine ⟨_, rfl, ?_, ?_, ?_, ?_, ?_⟩
    · simp [Player.resetHand, Hand.clear, Hand.addCard]
    · simp [Player.resetHand, Hand.clear, Hand.addCard]
    · simp [Hand.clear, Hand.addCard]
    · rfl
    · have : ({ g with
          deck := d4,
          player := { g.player.resetHand with
            hand := ((g.player.resetHand).hand.addCard c1).addCard c3 },
          dealerHand := ((g.dealerHand.clear).addCard c2).addCard c4,
          gameState := GameState.playerTurn } : Game).player.hand.isBlackjack = false := by
        simpa using hbj
      rw [this]
      simp

/-- Claim C4: in BETTING, with amount within [min_bet, max_bet] and covered
    by the bankroll, place_bet returns true, deducts the amount, clears both
    hands, deals four cards in the order Player, Dealer, Player, Dealer, and
    moves to PLAYER_TURN — or straight to ROUND_OVER when the dealt player
    hand is a natural blackjack. -/
theorem place_bet_success_deals (σ : List Card → List Card) (g : Game)
    (amt : Int) (hσ : ∀ l, (σ l).Perm l)
    (hst : g.gameState = GameState.betting)
    (hmin : g.minBet ≤ amt) (hmax : amt ≤ g.maxBet)
    (hcov : amt ≤ g.player.bankroll)
    (hn : 1 ≤ g.deck.numDecks) :
    ∃ c1 d1 c2 d2 c3 d3 c4 d4 g',
      Deck.draw σ g.deck = some (c1, d1) ∧ Deck.draw σ d1 = some (c2, d2) ∧
      Deck.draw σ d2 = some (c3, d3) ∧ Deck.draw σ d3 = some (c4, d4) ∧
      Game.placeBet σ g amt = some (g', true) ∧
      g'.player.bankroll = g.player.bankroll - amt ∧
      g'.player.hand.cards = [c1, c3] ∧
      g'.dealerHand.cards = [c2, c4] ∧
      g'.deck = d4 ∧
      g'.gameState = (if g'.player.hand.isBlackjack then GameState.roundOver
        else GameState.playerTurn) := by
  obtain ⟨c1, d1, hd1, hn1⟩ := draw_success σ hσ g.deck hn
  obtain ⟨c2, d2, hd2, hn2⟩ := draw_success σ hσ d1 (by rw [hn1]; exact hn)
  obtain ⟨c3, d3, hd3, hn3⟩ := draw_success σ hσ d2 (by rw [hn2, hn1]; exact hn)
  obtain ⟨c4, d4, hd4, hn4⟩ := draw_success σ hσ d3 (by rw [hn3, hn2, hn1]; exact hn)
  obtain ⟨g', hsr, e1, e2, e3, e4, e5⟩ := startRound_success σ
    ({ g with player := { g.player with
      bankroll := g.player.bankroll - amt,
      hand := { g.player.hand with bet := amt } } } : Game)
    c1 d1 c2 d2 c3 d3 c4 d4 hd1 hd2 hd3 hd4
  refine ⟨c1, d1, c2, d2, c3, d3, c4, d4, g', hd1, hd2, hd3, hd4, ?_, ?_, e2, e3, e4, e5⟩
  · unfold Game.placeBet
    have hne : ¬ (g.gameState ≠ GameState.betting) := by simp [hst]
    have hnr : ¬ (amt < g.minBet ∨ g.maxBet < amt) := by omega
    rw [if_neg hne, if_neg hnr]
    simp only [Player.placeBet, if_pos hcov, if_true]
    have hrec : ({ g with player := { g.player with
        bankroll := g.player.bankroll - amt,
        hand := { g.player.hand with bet := amt } } } : Game) =
        { g with player := { g.player with
          hand := { g.player.hand with bet := amt },
          bankroll := g.player.bankroll - amt } } := rfl
    rw [hrec] at hsr
    rw [hsr]
  · exact e1

/-- Claim C4 witness: the rigged four-card shoe accepts a bet of 100 from a
    bankroll of 1000, deals 10-9 to the player and 10-9 to the dealer, and
    ends in PLAYER_TURN with bankroll 900. -/
theorem place_bet_success_deals_witness :
    ∃ c1 d1 c2 d2 c3 d3 c4 d4 g',
      Deck.draw id gNineteen.deck = some (c1, d1) ∧ Deck.draw id d1 = some (c2, d2) ∧
      Deck.draw id d2 = some (c3, d3) ∧ Deck.draw id d3 = some (c4, d4) ∧
      Game.placeBet id gNineteen 100 = some (g', true) ∧
      g'.player.bankroll = gNineteen.player.bankroll - 100 ∧
      g'.player.hand.cards = [c1, c3] ∧
      g'.dealerHand.cards = [c2, c4] ∧
      g'.deck = d4 ∧
      g'.gameState = (if g'.player.hand.isBlackjack then GameState.roundOver
        else GameState.playerTurn) :=
  place_bet_success_deals id gNineteen 100 (fun l => List.Perm.refl l)
    (by decide) (by decide) (by decide) (by decide) (by decide)

/-- A fresh engine over a rigged four-card shoe that deals the player the
    natural blackjack Ace of spades and King of hearts, with the dealer
    showing a 7 up-card. -/
def gNatural : Game :=
  { deck := ⟨6, [⟨Suit.clubs, Rank.r9⟩, ⟨Suit.hearts, Rank.king⟩,
      ⟨Suit.hearts, Rank.r7⟩, ⟨Suit.spades, Rank.ace⟩]⟩,
    player := ⟨"Player", 1000, ⟨[], 0⟩⟩,
    dealerHand := ⟨[], 0⟩,
    minBet := 10,
    maxBet := 500,
    gameState := GameState.betting,
    roundResult := none }

/-- Claim C1 (code bug evaluation): wagering 100 from bankroll 1000 on the
    rigged shoe deals the player a natural blackjack against a dealer 7
    up-card; the round settles immediately with result BLACKJACK, but the
    bankroll ends at 900, not the 900 + 250 = 1150 the claim's payout
    floor(bet * 2.5) requires — _start_round zeroed the bet field before
    _handle_blackjack read it, so the settlement credits int(0 * 2.5) = 0. -/
theorem blackjack_settlement_credits_zero :
    (Game.placeBet id gNatural 100).map
      (fun x => (x.2, x.1.player.bankroll, x.1.roundResult, x.1.gameState)) =
      some (true, 900, some RoundResult.blackjack, GameState.roundOver) := by
  decide

/-- Claim C2 (code bug evaluation): after an accepted wager of 100 the player
    and dealer both hold 19; stand() settles the tie, but the bankroll stays
    at 900 instead of being refunded to 1000 — _determine_round_result adds
    the hand's bet field, which _start_round zeroed, so the TIE branch (and
    every other payout branch) credits 0. -/
theorem standard_settlement_credits_zero :
    Game.placeBet id gNineteen 100 = some (gMidRound, true) ∧
    (Game.stand id gMidRound).map
      (fun y => (y.2, y.1.player.bankroll, y.1.roundResult, y.1.gameState)) =
      some (true, 900, some RoundResult.tie, GameState.roundOver) := by
  constructor
  · decide
  · have h2 : dealerLoop id gMidRound.dealerHand gMidRound.deck =
        some (gMidRound.dealerHand, gMidRound.deck) :=
      dealerLoop_of_ge id _ _ (by decide)
    have h3 : Game.stand id gMidRound =
        some (determineRoundResult { gMidRound with
          gameState := GameState.dealerTurn }, true) := by
      unfold Game.stand dealerPlay
      rw [if_neg (by decide)]
      dsimp only
      simp only [h2]
    rw [h3]
    decide

/-- Claim C3 witness: the concrete accepted bet of 100 on the rigged shoe
    returns with the player hand's bet field equal to 0. -/
theorem bet_cleared_after_place_bet_witness :
    gMidRound.player.hand.bet = 0 :=
  (bet_cleared_after_place_bet id gNineteen gMidRound 100 (by decide)).1

/-- Claim C6 witness: after the concrete accepted bet of 100 from bankroll
    1000 the bankroll is still non-negative. -/
theorem bankroll_never_negative_witness :
    0 ≤ gMidRound.player.bankroll :=
  bankroll_never_negative id gNineteen (by decide) (by decide) (by decide)
    [Op.placeBet 100] gMidRound (by decide)
